import Mathlib

/-!
Shallow embedding of `graphrag/index/graph/extractors/community_reports/sort_context.py`
(the community-context assembly core): the single-community assembler `sort_context`,
the batch assembler `sort_context_batch` with its per-group `generate_context`, and the
two `_get_context_string` renderers.

Modelling conventions:
* Python dict values that the code inspects are modelled by `Val` (strings, ints, and
  the float-NaN placeholder); a dict is an association list `Record` with unique keys.
* `pandas` specifics that the code relies on are modelled where the code's behaviour
  depends on them: `drop_duplicates` keeps the first occurrence, `to_csv(index=False)`
  emits a header row plus one `\n`-terminated line per row with NaN rendered as the
  empty cell, DataFrame columns are the union of the rows' keys in first-appearance
  order.  CSV quoting/escaping and the float-dtype id normalisation
  (`astype(int)`) are outside the model (the spec declares CSV escaping out of scope,
  and no `Val` column is float-typed).
* The token counter (`num_tokens`, a collaborator outside this file's source) is an
  explicit function parameter `numTok : String → Nat`.
-/

set_option maxRecDepth 100000

namespace GraphRag

/-- A Python scalar value as inspected by this module: a string, an int, or the
float-NaN placeholder that pandas inserts for missing data. -/
inductive Val where
  | vstr : String → Val
  | vint : Int → Val
  | vnan : Val
deriving DecidableEq

/-- A Python dict with the insertion order of its keys (keys are unique in use). -/
abbrev Record := List (String × Val)

/-- Dict lookup: `r[k]` / `k in r`. -/
def rlookup (r : Record) (k : String) : Option Val :=
  (r.find? (fun p => p.1 == k)).map (fun p => p.2)

/-- Python truthiness of a `Val`: empty string and zero are falsy; NaN is truthy. -/
def truthy : Val → Bool
  | .vstr s => s ≠ ""
  | .vint n => n ≠ 0
  | .vnan => true

/-- Python `str(...)` of a `Val` (`str(float-nan)` is the string "nan"). -/
def pyStr : Val → String
  | .vstr s => s
  | .vint n => toString n
  | .vnan => "nan"

/-- An ASCII whitespace character (the characters Python's `str.strip()` removes,
restricted to ASCII; the inputs here contain no non-ASCII whitespace). -/
def isSpaceChar (c : Char) : Bool :=
  c == ' ' || c == '\t' || c == '\n' || c == '\r' || c == '\x0b' || c == '\x0c'

/-- Python `str.strip()`: drop leading and trailing whitespace. -/
def pyStrip (s : String) : String :=
  ⟨((s.data.dropWhile isSpaceChar).reverse.dropWhile isSpaceChar).reverse⟩

/-- The identity filter used by the single-community renderer:
`id_column in record and record[id_column] and str(record[id_column]).strip() != ""`. -/
def hasGoodId (idCol : String) (r : Record) : Bool :=
  match rlookup r idCol with
  | some v => truthy v && pyStrip (pyStr v) ≠ ""
  | none => false

/-- `pandas.DataFrame.drop_duplicates`: remove duplicate rows, keeping the first
occurrence of each (`List.dedup` keeps the last occurrence, so deduplicate the
reversal and reverse back). -/
def dedupKeepFirst [DecidableEq α] (l : List α) : List α :=
  l.reverse.dedup.reverse

/-- DataFrame columns for a list of dict rows: the union of the keys in order of
first appearance. -/
def columnsOf (rs : List Record) : List String :=
  dedupKeepFirst (rs.flatMap (fun r => r.map (fun p => p.1)))

/-- One CSV cell of `to_csv`: a missing key or NaN renders as the empty cell. -/
def csvCellOf (r : Record) (c : String) : String :=
  match rlookup r c with
  | some (.vstr s) => s
  | some (.vint n) => toString n
  | some .vnan => ""
  | none => ""

/-- One CSV data line of `to_csv(index=False, sep=',')`, newline-terminated. -/
def csvRow (cols : List String) (r : Record) : String :=
  String.intercalate "," (cols.map (csvCellOf r)) ++ "\n"

/-- `DataFrame(rows).to_csv(index=False, sep=',')`: comma-joined header row of column
names, then one line per row, every line newline-terminated, no index column. -/
def toCsv (rs : List Record) : String :=
  let cols := columnsOf rs
  String.intercalate "," cols ++ "\n" ++ String.join (rs.map (csvRow cols))

/-- Python `"\n\n".join(contexts)`. -/
def joinBlocks : List String → String
  | [] => ""
  | [b] => b
  | b :: bs => b ++ "\n\n" ++ joinBlocks bs

/-- Modelled from the spec: default column name for node ids.  The `schemas` module
holding the default column names is not part of the provided source; only that the
defaults are fixed, distinct strings matters to the claims. -/
def NODE_ID : String := "node_id"

/-- Modelled from the spec: default column name for node names (the join key). -/
def NODE_NAME : String := "node_name"

/-- Modelled from the spec: default column name for edge ids. -/
def EDGE_ID : String := "edge_id"

/-- Modelled from the spec: default column name for the edge degree rank field. -/
def EDGE_DEGREE : String := "edge_degree"

/-- Modelled from the spec: default column name for the edge source endpoint. -/
def EDGE_SOURCE : String := "edge_source"

/-- Modelled from the spec: default column name for the edge target endpoint. -/
def EDGE_TARGET : String := "edge_target"

/-- Modelled from the spec: default column name for claim ids. -/
def CLAIM_ID : String := "claim_id"

/-- Modelled from the spec: default column name for a claim's subject node. -/
def CLAIM_SUBJECT : String := "claim_subject"

/-- Modelled from the spec: default column name for community ids. -/
def COMMUNITY_ID : String := "community_id"

/-- The configurable column names taken by `sort_context` (the `*_column` keyword
parameters), with their `schemas` defaults.  The three `*_details` column names are
absorbed into the structured `LocalRecord` fields. -/
structure Cols where
  nodeId : String := NODE_ID
  nodeName : String := NODE_NAME
  edgeId : String := EDGE_ID
  edgeDegree : String := EDGE_DEGREE
  edgeSource : String := EDGE_SOURCE
  edgeTarget : String := EDGE_TARGET
  claimId : String := CLAIM_ID
  claimSubject : String := CLAIM_SUBJECT
  communityId : String := COMMUNITY_ID
deriving DecidableEq

/-- The default column configuration. -/
def defaultCols : Cols := {}

/-!
## Single-community assembler (`sort_context`)

One element of `local_context`: the per-node row, holding the node's name, its
detail dict, its incident edge dicts and its claim dicts.  A `none` entry in the
two lists models a pandas NaN entry (removed by the `not pd.isna(...)` filters).
-/

/-- One `local_context` row consumed by `sort_context`. -/
structure LocalRecord where
  nodeName : String
  nodeDetails : Record := []
  edgeDetails : List (Option Record) := []
  claimDetails : List (Option Record) := []
deriving DecidableEq

/-- The pooled edge list: every record's (non-NaN, dict) edge details, in order. -/
def collectEdges (L : List LocalRecord) : List Record :=
  L.flatMap (fun r => r.edgeDetails.filterMap id)

/-- The `node_details`/`claim_details` dicts are written per record in order, so a
repeated node name keeps the last record's values. -/
def lastRecFor (L : List LocalRecord) (name : String) : Option LocalRecord :=
  L.reverse.find? (fun r => r.nodeName == name)

/-- `node_details.get(name, {})`. -/
def nodeDetailFor (L : List LocalRecord) (name : String) : Record :=
  ((lastRecFor L name).map (fun r => r.nodeDetails)).getD []

/-- `claim_details.get(name, [])` (with that record's NaN claim entries removed). -/
def claimsFor (L : List LocalRecord) (name : String) : List Record :=
  ((lastRecFor L name).map (fun r => r.claimDetails.filterMap id)).getD []

/-- A dict key taken from an edge's endpoint cell: only a string value can match the
string-keyed `node_details`/`claim_details` dicts (NaN never equals any dict key). -/
def nameKey : Option Val → Option String
  | some (.vstr s) => some s
  | _ => none

/-- `node_details.get(edge[edge_source_column], {})`. -/
def srcDetailOf (L : List LocalRecord) (cols : Cols) (e : Record) : Record :=
  match nameKey (rlookup e cols.edgeSource) with
  | some n => nodeDetailFor L n
  | none => []

/-- `node_details.get(edge[edge_target_column], {})`. -/
def tgtDetailOf (L : List LocalRecord) (cols : Cols) (e : Record) : Record :=
  match nameKey (rlookup e cols.edgeTarget) with
  | some n => nodeDetailFor L n
  | none => []

/-- `claim_details.get(edge[edge_source_column], [])`. -/
def srcClaimsOf (L : List LocalRecord) (cols : Cols) (e : Record) : List Record :=
  match nameKey (rlookup e cols.edgeSource) with
  | some n => claimsFor L n
  | none => []

/-- `claim_details.get(edge[edge_target_column], [])`. -/
def tgtClaimsOf (L : List LocalRecord) (cols : Cols) (e : Record) : List Record :=
  match nameKey (rlookup e cols.edgeTarget) with
  | some n => claimsFor L n
  | none => []

/-- The degree rank of an edge row (`x[edge_degree_column]`; the claims about edge
ordering are stated only for pools whose degree cells are ints, matching the inputs
on which the Python comparison is defined). -/
def getDeg (degCol : String) (r : Record) : Int :=
  match rlookup r degCol with
  | some (.vint n) => n
  | _ => 0

/-- The edge id of an edge row as an int (the batch tie-break key; the ordering
claim is stated only for pools whose id cells are ints). -/
def getIdInt (r : Record) : Int :=
  match rlookup r EDGE_ID with
  | some (.vint n) => n
  | _ => 0

/-- The ordering used by `sorted(edges, key=lambda x: x[edge_degree_column],
reverse=True)`: `a` may stay before `b` exactly when `deg b ≤ deg a`. -/
def singleLe (cols : Cols) (a b : Record) : Prop :=
  getDeg cols.edgeDegree b ≤ getDeg cols.edgeDegree a

instance (cols : Cols) : DecidableRel (singleLe cols) := fun a b =>
  inferInstanceAs (Decidable (getDeg cols.edgeDegree b ≤ getDeg cols.edgeDegree a))

/-- `sorted(..., reverse=True)` is the stable descending sort. -/
def singleSorted (cols : Cols) (L : List LocalRecord) : List Record :=
  List.insertionSort (singleLe cols) (collectEdges L)

/-- One section of the single-community `_get_context_string`: filter the rows by
identity, deduplicate, and emit a header-plus-CSV block when rows remain. -/
def sectionBlock (header : String) (idCol : String) (rs : List Record) : List String :=
  let fr := dedupKeepFirst (rs.filter (hasGoodId idCol))
  if fr.isEmpty then [] else [header ++ "\n" ++ toCsv fr]

/-- The sub-community reports section of the single-community renderer (an absent or
empty report list contributes nothing; otherwise same filter/dedup/CSV shape). -/
def reportsBlockSingle (cidCol : String) (subs : Option (List Record)) : List String :=
  match subs with
  | none => []
  | some reps => sectionBlock "----Reports-----" cidCol reps

/-- The single-community `_get_context_string`: Reports, Entities, Claims,
Relationships blocks (each only when non-empty) joined by `"\n\n"`. -/
def get_context_string (cols : Cols) (entities edges claims : List Record)
    (subs : Option (List Record)) : String :=
  joinBlocks
    (reportsBlockSingle cols.communityId subs
      ++ sectionBlock "-----Entities-----" cols.nodeId entities
      ++ sectionBlock "-----Claims-----" cols.claimId claims
      ++ sectionBlock "-----Relationships-----" cols.edgeId edges)

/-- The growing node/edge/claim lists plus the last accepted context string. -/
structure GrowState where
  nodes : List Record := []
  edges : List Record := []
  claims : List Record := []
  ctx : String := ""
deriving DecidableEq

/-- One growth step of `sort_context`'s loop body (the list extensions, before the
token check): both endpoint details and the edge are appended, and the claim lines
`extend(source_claims if source_claims else [])`,
`extend(target_claims if source_claims else [])` gate both appends on the source's
claim list being non-empty. -/
def growStep (L : List LocalRecord) (cols : Cols) (st : GrowState) (e : Record) :
    GrowState :=
  let sc := srcClaimsOf L cols e
  let tc := tgtClaimsOf L cols e
  { st with
    nodes := st.nodes ++ [srcDetailOf L cols e, tgtDetailOf L cols e]
    edges := st.edges ++ [e]
    claims := st.claims ++ (if sc.isEmpty then [] else sc)
      ++ (if sc.isEmpty then [] else tc) }

/-- The greedy growth loop of `sort_context`: on a truthy `max_tokens`, render after
each step and stop (keeping the previous accepted string) as soon as the render
exceeds the budget; otherwise accept the render and continue.  With no (or zero)
budget nothing is rendered inside the loop. -/
def growLoop (numTok : String → Nat) (mt : Option Nat) (L : List LocalRecord)
    (cols : Cols) (subs : Option (List Record)) :
    List Record → GrowState → GrowState
  | [], st => st
  | e :: rest, st =>
    let st' := growStep L cols st e
    match mt with
    | some m =>
      if m ≠ 0 then
        let new := get_context_string cols st'.nodes st'.edges st'.claims subs
        if numTok new > m then { st' with ctx := st.ctx }
        else growLoop numTok mt L cols subs rest { st' with ctx := new }
      else growLoop numTok mt L cols subs rest st'
    | none => growLoop numTok mt L cols subs rest st'

/-- `sort_context`: sort the pooled edges by degree descending, grow greedily, and
if no render was ever accepted return a fresh render of the lists at termination. -/
def sort_context (numTok : String → Nat) (L : List LocalRecord)
    (subs : Option (List Record)) (mt : Option Nat) (cols : Cols) : String :=
  let final := growLoop numTok mt L cols subs (singleSorted cols L) {}
  if final.ctx = "" then
    get_context_string cols final.nodes final.edges final.claims subs
  else final.ctx

/-!
## Batch assembler (`sort_context_batch` / `generate_context`)
-/

/-- One row of the `local_contexts` DataFrame (within one community group): the
node's detail dict, its edge-detail list, its claim detail and the opaque
`all_context` payload.  `none` models a NaN cell (removed by `dropna`). -/
structure BatchRow where
  nodeDetails : Option Record := none
  edgeDetails : List (Option Record) := []
  claimDetails : Option Record := none
  allContext : Val := .vnan
deriving DecidableEq

/-- One output row of `sort_context_batch` (`CONTEXT_STRING`, `CONTEXT_SIZE`,
`CONTEXT_EXCEED_FLAG`, `ALL_CONTEXT`, keyed by the community id). -/
structure ContextRow where
  communityId : Int
  contextString : String
  contextSize : Nat
  exceedFlag : Bool
  allContext : List Val
deriving DecidableEq

/-- `group[edge_details_column].explode().dropna()` then `drop_duplicates`. -/
def batchEdgePool (grp : List BatchRow) : List Record :=
  dedupKeepFirst ((grp.flatMap (fun r => r.edgeDetails)).filterMap id)

/-- `group[claim_details_column].dropna()` then `drop_duplicates`. -/
def batchClaims (grp : List BatchRow) : List Record :=
  dedupKeepFirst (grp.filterMap (fun r => r.claimDetails))

/-- `group[node_details_column].dropna()` then `drop_duplicates`. -/
def batchNodes (grp : List BatchRow) : List Record :=
  dedupKeepFirst (grp.filterMap (fun r => r.nodeDetails))

/-- The ordering of `edges.sort_values(by=[EDGE_DEGREE, EDGE_ID],
ascending=[False, True])`: degree descending, ties broken by edge id ascending. -/
def batchLe (a b : Record) : Prop :=
  getDeg EDGE_DEGREE b < getDeg EDGE_DEGREE a ∨
    (getDeg EDGE_DEGREE a = getDeg EDGE_DEGREE b ∧ getIdInt a ≤ getIdInt b)

instance : DecidableRel batchLe := fun a b =>
  inferInstanceAs (Decidable (getDeg EDGE_DEGREE b < getDeg EDGE_DEGREE a ∨
    (getDeg EDGE_DEGREE a = getDeg EDGE_DEGREE b ∧ getIdInt a ≤ getIdInt b)))

/-- `edges.sort_values(by=[EDGE_DEGREE, EDGE_ID], ascending=[False, True])` (the
sort on an empty frame is skipped in the code, which renders the same). -/
def batchSortedEdges (grp : List BatchRow) : List Record :=
  List.insertionSort batchLe (batchEdgePool grp)

/-- The batch `_get_context_string`: start from the caller's existing contexts (the
seeded Reports block) and append Entities, Claims, Relationships blocks for the
non-empty lists — note: deduplication only, no identity filtering. -/
def batch_context_string (entities edges claims : List Record)
    (existing : List String) : String :=
  joinBlocks (existing
    ++ (if entities.isEmpty then []
        else ["-----Entities-----\n" ++ toCsv (dedupKeepFirst entities)])
    ++ (if claims.isEmpty then []
        else ["-----Claims-----\n" ++ toCsv (dedupKeepFirst claims)])
    ++ (if edges.isEmpty then []
        else ["-----Relationships-----\n" ++ toCsv (dedupKeepFirst edges)]))

/-- pandas scalar equality as used by `nodes[nodes[NODE_NAME] == source]`: NaN (and
a missing cell, which reads as NaN) compares unequal to everything. -/
def pdMatch (cell scalar : Option Val) : Bool :=
  match cell, scalar with
  | some .vnan, _ => false
  | _, some .vnan => false
  | some a, some b => a == b
  | _, _ => false

/-- pandas `isin` membership as used by
`claims[claims[CLAIM_SUBJECT].isin([source, target])]`: hash-based, so unlike `==`
a NaN cell matches a NaN list entry, and a missing cell reads as NaN. -/
def isinPair (cell v1 v2 : Option Val) : Bool :=
  cell.getD .vnan == v1.getD .vnan || cell.getD .vnan == v2.getD .vnan

/-- One growth step of `generate_context`'s loop body: append the first matching
source-name and target-name node rows (when they exist), the claims whose subject is
the source or the target (when the claims table is non-empty), and the edge. -/
def batchStep (nodes claims : List Record) (st : GrowState) (e : Record) :
    GrowState :=
  let src := rlookup e EDGE_SOURCE
  let tgt := rlookup e EDGE_TARGET
  let srcHit := (nodes.filter (fun n => pdMatch (rlookup n NODE_NAME) src)).head?
  let tgtHit := (nodes.filter (fun n => pdMatch (rlookup n NODE_NAME) tgt)).head?
  let rel := claims.filter (fun c => isinPair (rlookup c CLAIM_SUBJECT) src tgt)
  { st with
    nodes := st.nodes ++ srcHit.toList ++ tgtHit.toList
    claims := st.claims ++ (if claims.isEmpty then [] else rel)
    edges := st.edges ++ [e] }

/-- The truthy-budget overrun test
`max_tokens and num_tokens(new_context_string) > max_tokens`. -/
def overBudget (mt : Option Nat) (n : Nat) : Bool :=
  match mt with
  | some m => decide (m ≠ 0) && decide (n > m)
  | none => false

/-- The greedy growth loop of `generate_context`: unlike the single-community loop
the render happens on every step (budget or not); the loop stops, keeping the
previous accepted string, when a truthy budget is exceeded. -/
def batchLoop (numTok : String → Nat) (mt : Option Nat) (contexts : List String)
    (nodes claims : List Record) : List Record → GrowState → GrowState
  | [], st => st
  | e :: rest, st =>
    let st' := batchStep nodes claims st e
    let new := batch_context_string st'.nodes st'.edges st'.claims contexts
    if overBudget mt (numTok new) then { st' with ctx := st.ctx }
    else batchLoop numTok mt contexts nodes claims rest { st' with ctx := new }

/-- The seeded Reports block: the sub-community report rows whose community id cell
equals the group key, rendered with no deduplication and no identity filtering. -/
def reportsSeed (subs : Option (List Record)) (gid : Int) : List String :=
  match subs with
  | none => []
  | some reps =>
    let sel := reps.filter (fun r => rlookup r COMMUNITY_ID == some (.vint gid))
    if sel.isEmpty then [] else ["----Reports-----\n" ++ toCsv sel]

/-- `generate_context` applied to one community group: explode/dedup, sort, seed the
Reports block, grow greedily, then emit the output row; the exceed flag is
`len > max_tokens if max_tokens else False`. -/
def generate_context (numTok : String → Nat) (mt : Option Nat)
    (subs : Option (List Record)) (gid : Int) (grp : List BatchRow) : ContextRow :=
  let contexts := reportsSeed subs gid
  let final := batchLoop numTok mt contexts (batchNodes grp) (batchClaims grp)
    (batchSortedEdges grp) {}
  let len := numTok final.ctx
  { communityId := gid
    contextString := final.ctx
    contextSize := len
    exceedFlag := overBudget mt len
    allContext := grp.map (fun r => r.allContext) }

/-- The distinct community keys in `groupby(community_id)` order (ascending). -/
def batchKeys (input : List (Int × BatchRow)) : List Int :=
  List.insertionSort (fun a b => a ≤ b) (dedupKeepFirst (input.map (fun p => p.1)))

/-- The rows of one community group, in input order. -/
def groupRows (input : List (Int × BatchRow)) (gid : Int) : List BatchRow :=
  (input.filter (fun p => p.1 == gid)).map (fun p => p.2)

/-- `sort_context_batch`: group the rows by community id and emit one
`generate_context` row per group. -/
def sort_context_batch (numTok : String → Nat) (input : List (Int × BatchRow))
    (subs : Option (List Record)) (mt : Option Nat) : List ContextRow :=
  (batchKeys input).map (fun gid =>
    generate_context numTok mt subs gid (groupRows input gid))

/-- The render produced by the very first growth step of `generate_context` on a
group whose sorted edge list starts with `e` (used to state the stopping-policy
claims). -/
def firstStepRender (subs : Option (List Record)) (gid : Int) (grp : List BatchRow)
    (e : Record) : String :=
  let st := batchStep (batchNodes grp) (batchClaims grp) {} e
  batch_context_string st.nodes st.edges st.claims (reportsSeed subs gid)

/-!
## Statement-side definitions and concrete witness inputs
-/

/-- Modelled from the spec (§4.1): the rendering contract stated in the spec's own
terms — one block per non-empty (filtered, deduplicated) collection, each a literal
section header line followed by the tabular rendering, in the fixed order Reports,
Entities, Claims, Relationships, joined with a blank line; the empty string when
every collection is empty. -/
def renderSpec (cols : Cols) (entities edges claims : List Record)
    (subs : Option (List Record)) : String :=
  let colls : List (String × List Record) :=
    [("----Reports-----",
      dedupKeepFirst ((match subs with
        | none => ([] : List Record)
        | some r => r).filter (hasGoodId cols.communityId))),
     ("-----Entities-----", dedupKeepFirst (entities.filter (hasGoodId cols.nodeId))),
     ("-----Claims-----", dedupKeepFirst (claims.filter (hasGoodId cols.claimId))),
     ("-----Relationships-----", dedupKeepFirst (edges.filter (hasGoodId cols.edgeId)))]
  joinBlocks ((colls.filter (fun pr => !pr.2.isEmpty)).map
    (fun pr => pr.1 ++ "\n" ++ toCsv pr.2))

/-- Does `needle` start `hay`? (statement helper for substring occurrence). -/
def startsWithChars : List Char → List Char → Bool
  | _, [] => true
  | [], _ :: _ => false
  | c :: cs, d :: ds => c == d && startsWithChars cs ds

/-- Does `needle` occur contiguously inside `hay`? -/
def containsChars : List Char → List Char → Bool
  | [], needle => startsWithChars [] needle
  | c :: t, needle => startsWithChars (c :: t) needle || containsChars t needle

/-- Does the string `needle` occur contiguously inside `hay`? -/
def strOccurs (needle hay : String) : Bool :=
  containsChars hay.data needle.data

/-- Token counter used by the concrete witnesses: plain character count. -/
def lenTok : String → Nat := String.length

/-- Does record `r` hold an int in column `c`?  (The ordering claims are stated for
pools whose sort-key cells are ints, the inputs on which the Python comparisons are
defined.) -/
def isIntCell (r : Record) (c : String) : Bool :=
  match rlookup r c with
  | some (.vint _) => true
  | _ => false

/-- Witness edge A→B with degree 1 and a well-formed string id. -/
def wEdge : Record := [("edge_id", .vstr "e1"), ("edge_source", .vstr "A"),
  ("edge_target", .vstr "B"), ("edge_degree", .vint 1)]

/-- Witness claim about node A. -/
def wClaimA : Record := [("claim_id", .vstr "c1"), ("claim_subject", .vstr "A")]

/-- Witness claim about node B. -/
def wClaimB : Record := [("claim_id", .vstr "c2"), ("claim_subject", .vstr "B")]

/-- Witness local-context row for node A (carries the edge and A's claim). -/
def wNodeA : LocalRecord :=
  ⟨"A", [("node_id", .vstr "n1")], [some wEdge], [some wClaimA]⟩

/-- Witness local-context row for node B (carries B's claim). -/
def wNodeB : LocalRecord := ⟨"B", [("node_id", .vstr "n2")], [], [some wClaimB]⟩

/-- Witness single-community input: nodes A and B, edge A→B, one claim each. -/
def wL : List LocalRecord := [wNodeA, wNodeB]

/-- Witness row for node A without claims (source side of `wEdge`). -/
def wNodeA7 : LocalRecord := ⟨"A", [("node_id", .vstr "n1")], [some wEdge], []⟩

/-- Witness single-community input where the edge's source has no claims but the
target does. -/
def wL7 : List LocalRecord := [wNodeA7, wNodeB]

/-- Witness batch row of community 7: node A's details, the edge and A's claim. -/
def wRow3 : BatchRow :=
  ⟨some [("node_name", .vstr "A"), ("node_id", .vstr "n1")], [some wEdge],
    some wClaimA, .vstr "ctx-a"⟩

/-- Witness batch input with the single community 7. -/
def wInput3 : List (Int × BatchRow) := [(7, wRow3)]

/-- A sub-community report row for community 3. -/
def wRep8 : Record := [("community_id", .vint 3), ("report", .vstr "summary")]

/-- Witness batch input for community 3 with a node but no edges at all. -/
def wInput8 : List (Int × BatchRow) :=
  [(3, ⟨some [("node_name", .vstr "X"), ("node_id", .vstr "n9")], [], none, .vnan⟩)]

/-- Equal-degree batch edge with int id 1. -/
def wEdgeI1 : Record := [("edge_id", .vint 1), ("edge_source", .vstr "A"),
  ("edge_target", .vstr "B"), ("edge_degree", .vint 5)]

/-- Equal-degree batch edge with int id 2. -/
def wEdgeI2 : Record := [("edge_id", .vint 2), ("edge_source", .vstr "B"),
  ("edge_target", .vstr "C"), ("edge_degree", .vint 5)]

/-- Witness batch group holding the two equal-degree edges in reverse id order. -/
def wGrp4 : List BatchRow := [⟨none, [some wEdgeI2, some wEdgeI1], none, .vnan⟩]

/-- The fallback output row used to project concrete batch results in witnesses. -/
def wDefaultRow : ContextRow := ⟨0, "", 0, false, []⟩

/-- A sub-community report row for community 7 (supplied in duplicate to probe the
batch Reports seed). -/
def wRep7 : Record := [("community_id", .vint 7), ("report", .vstr "dup-report")]

/-!
## Lemmas about deduplication, joining and sorting
-/

theorem dedupKeepFirst_sublist [DecidableEq α] (l : List α) :
    List.Sublist (dedupKeepFirst l) l := by
  have h : List.Sublist (l.reverse.dedup).reverse l.reverse.reverse :=
    List.reverse_sublist.mpr (List.dedup_sublist l.reverse)
  simpa [dedupKeepFirst] using h

theorem mem_dedupKeepFirst [DecidableEq α] {a : α} {l : List α} :
    a ∈ dedupKeepFirst l ↔ a ∈ l := by
  simp [dedupKeepFirst, List.mem_dedup]

theorem nodup_dedupKeepFirst [DecidableEq α] (l : List α) :
    (dedupKeepFirst l).Nodup := by
  simpa [dedupKeepFirst, List.nodup_reverse] using List.nodup_dedup l.reverse

theorem dedupKeepFirst_eq_nil [DecidableEq α] {l : List α} :
    dedupKeepFirst l = [] ↔ l = [] := by
  simp [dedupKeepFirst, List.dedup_eq_nil]

theorem isEmpty_dedupKeepFirst [DecidableEq α] (l : List α) :
    (dedupKeepFirst l).isEmpty = l.isEmpty := by
  by_cases h : l = []
  · simp [h, dedupKeepFirst]
  · have h' : dedupKeepFirst l ≠ [] := fun hc => h (dedupKeepFirst_eq_nil.mp hc)
    rw [List.isEmpty_eq_false.mpr h, List.isEmpty_eq_false.mpr h']

theorem dedup_filter [DecidableEq α] (p : α → Bool) (l : List α) :
    List.dedup (l.filter p) = (List.dedup l).filter p := by
  induction l with
  | nil => simp
  | cons a l ih =>
    by_cases hm : a ∈ l
    · rw [List.dedup_cons_of_mem hm]
      by_cases hp : p a
      · have : a ∈ l.filter p := List.mem_filter.mpr ⟨hm, hp⟩
        rw [List.filter_cons_of_pos hp, List.dedup_cons_of_mem this, ih]
      · rw [List.filter_cons_of_neg (by simpa using hp), ih]
    · rw [List.dedup_cons_of_not_mem hm]
      by_cases hp : p a
      · have : a ∉ l.filter p := fun hc => hm (List.mem_filter.mp hc).1
        rw [List.filter_cons_of_pos hp, List.dedup_cons_of_not_mem this,
          List.filter_cons_of_pos hp, ih]
      · rw [List.filter_cons_of_neg (by simpa using hp),
          List.filter_cons_of_neg (by simpa using hp), ih]

theorem dedupKeepFirst_filter [DecidableEq α] (p : α → Bool) (l : List α) :
    dedupKeepFirst (l.filter p) = (dedupKeepFirst l).filter p := by
  simp [dedupKeepFirst, ← List.filter_reverse, dedup_filter]

theorem dedupKeepFirst_idem [DecidableEq α] (l : List α) :
    dedupKeepFirst (dedupKeepFirst l) = dedupKeepFirst l := by
  simp [dedupKeepFirst, List.dedup_idem]

theorem le_length_joinBlocks {b : String} {bs : List String} (hb : b ∈ bs) :
    b.length ≤ (joinBlocks bs).length := by
  induction bs with
  | nil => cases hb
  | cons x t ih =>
    cases t with
    | nil =>
      rcases List.mem_singleton.mp hb with rfl
      simp [joinBlocks]
    | cons y t' =>
      have hj : joinBlocks (x :: y :: t') = x ++ "\n\n" ++ joinBlocks (y :: t') := rfl
      rcases List.mem_cons.mp hb with rfl | hmem
      · rw [hj]
        simp only [String.length_append]
        omega
      · have h1 := ih hmem
        rw [hj]
        simp only [String.length_append]
        omega

theorem joinBlocks_ne_empty {bs : List String} {b : String} (hb : b ∈ bs)
    (hne : b ≠ "") : joinBlocks bs ≠ "" := by
  intro hempty
  have h1 : b.length ≤ (joinBlocks bs).length := le_length_joinBlocks hb
  rw [hempty, String.length_empty, Nat.le_zero] at h1
  exact hne (by cases b with | mk data => cases data <;> simp_all [String.length])

theorem get_context_string_ne_empty_of_edge (cols : Cols) {edges : List Record}
    {e : Record} (he : e ∈ edges) (hg : hasGoodId cols.edgeId e = true)
    (ns cs : List Record) (subs : Option (List Record)) :
    get_context_string cols ns edges cs subs ≠ "" := by
  have hfe : e ∈ edges.filter (hasGoodId cols.edgeId) := List.mem_filter.mpr ⟨he, hg⟩
  have hfr : ¬ (dedupKeepFirst (edges.filter (hasGoodId cols.edgeId))).isEmpty := by
    intro hc
    rw [List.isEmpty_iff, dedupKeepFirst_eq_nil] at hc
    rw [hc] at hfe
    cases hfe
  set blk : String := "-----Relationships-----" ++ "\n" ++
    toCsv (dedupKeepFirst (edges.filter (hasGoodId cols.edgeId))) with hblk
  have hmem : blk ∈ reportsBlockSingle cols.communityId subs
      ++ sectionBlock "-----Entities-----" cols.nodeId ns
      ++ sectionBlock "-----Claims-----" cols.claimId cs
      ++ sectionBlock "-----Relationships-----" cols.edgeId edges := by
    have : blk ∈ sectionBlock "-----Relationships-----" cols.edgeId edges := by
      simp only [sectionBlock]
      rw [if_neg (by simpa using hfr)]
      simp [hblk]
    simp only [List.mem_append]
    exact Or.inr this
  have hblkne : blk ≠ "" := by
    intro hc
    have h2 := congrArg String.length hc
    simp only [hblk, String.length_append, String.length_empty] at h2
    have h3 : "-----Relationships-----".length = 23 := rfl
    omega
  exact joinBlocks_ne_empty hmem hblkne

instance (cols : Cols) : IsTotal Record (singleLe cols) :=
  ⟨fun a b => le_total _ _⟩

instance (cols : Cols) : IsTrans Record (singleLe cols) :=
  ⟨fun _ _ _ h1 h2 => le_trans h2 h1⟩

instance : IsTotal Record batchLe := by
  constructor
  intro a b
  unfold batchLe
  rcases lt_trichotomy (getDeg EDGE_DEGREE a) (getDeg EDGE_DEGREE b) with h | h | h
  · exact Or.inr (Or.inl h)
  · rcases le_total (getIdInt a) (getIdInt b) with h2 | h2
    · exact Or.inl (Or.inr ⟨h, h2⟩)
    · exact Or.inr (Or.inr ⟨h.symm, h2⟩)
  · exact Or.inl (Or.inl h)

instance : IsTrans Record batchLe := by
  constructor
  intro a b c h1 h2
  unfold batchLe at h1 h2 ⊢
  rcases h1 with h1 | ⟨h1, h1'⟩ <;> rcases h2 with h2 | ⟨h2, h2'⟩
  · exact Or.inl (lt_trans h2 h1)
  · exact Or.inl (h2 ▸ h1)
  · exact Or.inl (h1 ▸ h2)
  · exact Or.inr ⟨h1.trans h2, h1'.trans h2'⟩

theorem singleSorted_pairwise (cols : Cols) (L : List LocalRecord) :
    (singleSorted cols L).Pairwise (singleLe cols) :=
  List.sorted_insertionSort (singleLe cols) (collectEdges L)

theorem batchSortedEdges_pairwise (grp : List BatchRow) :
    (batchSortedEdges grp).Pairwise batchLe :=
  List.sorted_insertionSort batchLe (batchEdgePool grp)

theorem mem_singleSorted {cols : Cols} {L : List LocalRecord} {e : Record} :
    e ∈ singleSorted cols L ↔ e ∈ collectEdges L :=
  List.mem_insertionSort (singleLe cols)

theorem growLoop_nil (numTok : String → Nat) (mt : Option Nat)
    (L : List LocalRecord) (cols : Cols) (subs : Option (List Record))
    (st : GrowState) : growLoop numTok mt L cols subs [] st = st := rfl

theorem growLoop_cons_none (numTok : String → Nat) (L : List LocalRecord)
    (cols : Cols) (subs : Option (List Record)) (e : Record)
    (rest : List Record) (st : GrowState) :
    growLoop numTok none L cols subs (e :: rest) st =
      growLoop numTok none L cols subs rest (growStep L cols st e) := rfl

theorem growLoop_cons_some (numTok : String → Nat) (m : Nat)
    (L : List LocalRecord) (cols : Cols) (subs : Option (List Record))
    (e : Record) (rest : List Record) (st : GrowState) :
    growLoop numTok (some m) L cols subs (e :: rest) st =
      (if m ≠ 0 then
        if numTok (get_context_string cols (growStep L cols st e).nodes
            (growStep L cols st e).edges (growStep L cols st e).claims subs) > m
        then { growStep L cols st e with ctx := st.ctx }
        else growLoop numTok (some m) L cols subs rest
          { growStep L cols st e with
            ctx := get_context_string cols (growStep L cols st e).nodes
              (growStep L cols st e).edges (growStep L cols st e).claims subs }
      else growLoop numTok (some m) L cols subs rest (growStep L cols st e)) := rfl

theorem batchLoop_nil (numTok : String → Nat) (mt : Option Nat)
    (contexts : List String) (nodes claims : List Record) (st : GrowState) :
    batchLoop numTok mt contexts nodes claims [] st = st := rfl

theorem batchLoop_cons (numTok : String → Nat) (mt : Option Nat)
    (contexts : List String) (nodes claims : List Record) (e : Record)
    (rest : List Record) (st : GrowState) :
    batchLoop numTok mt contexts nodes claims (e :: rest) st =
      (let st' := batchStep nodes claims st e
       let new := batch_context_string st'.nodes st'.edges st'.claims contexts
       if overBudget mt (numTok new) then { st' with ctx := st.ctx }
       else batchLoop numTok mt contexts nodes claims rest
         { st' with ctx := new }) := rfl

theorem filter_degEq_orderedInsert (cols : Cols) (d : Int) (a : Record)
    (l : List Record) :
    (List.orderedInsert (singleLe cols) a l).filter
      (fun x => decide (getDeg cols.edgeDegree x = d)) =
    if getDeg cols.edgeDegree a = d then
      a :: l.filter (fun x => decide (getDeg cols.edgeDegree x = d))
    else l.filter (fun x => decide (getDeg cols.edgeDegree x = d)) := by
  induction l with
  | nil =>
    by_cases hd : getDeg cols.edgeDegree a = d <;>
      simp [List.orderedInsert, hd]
  | cons b l ih =>
    by_cases hr : singleLe cols a b
    · rw [List.orderedInsert_of_le _ _ hr]
      by_cases hd : getDeg cols.edgeDegree a = d <;>
        simp [List.filter_cons, hd]
    · have hlt : getDeg cols.edgeDegree a < getDeg cols.edgeDegree b := by
        unfold singleLe at hr
        omega
      simp only [List.orderedInsert, if_neg hr, List.filter_cons]
      by_cases hd : getDeg cols.edgeDegree a = d
      · have hbd : ¬ getDeg cols.edgeDegree b = d := by omega
        simp [hbd, ih, hd]
      · simp only [ih, if_neg hd]

theorem filter_degEq_singleSorted (cols : Cols) (L : List LocalRecord) (d : Int) :
    (singleSorted cols L).filter (fun x => decide (getDeg cols.edgeDegree x = d)) =
      (collectEdges L).filter (fun x => decide (getDeg cols.edgeDegree x = d)) := by
  unfold singleSorted
  induction collectEdges L with
  | nil => rfl
  | cons a l ih =>
    rw [List.insertionSort, filter_degEq_orderedInsert, List.filter_cons]
    by_cases hd : getDeg cols.edgeDegree a = d <;> simp [hd, ih]

theorem growLoop_edges_take (numTok : String → Nat) (mt : Option Nat)
    (L : List LocalRecord) (cols : Cols) (subs : Option (List Record)) :
    ∀ l st, ∃ n,
      (growLoop numTok mt L cols subs l st).edges = st.edges ++ l.take n := by
  intro l
  induction l with
  | nil => exact fun st => ⟨0, by simp [growLoop_nil]⟩
  | cons e rest ih =>
    intro st
    cases mt with
    | none =>
      rw [growLoop_cons_none]
      rcases ih (growStep L cols st e) with ⟨n, hn⟩
      exact ⟨n + 1, by simpa [growStep, List.append_assoc] using hn⟩
    | some m =>
      rw [growLoop_cons_some]
      by_cases hm : m ≠ 0
      · rw [if_pos hm]
        by_cases hov : numTok (get_context_string cols (growStep L cols st e).nodes
            (growStep L cols st e).edges (growStep L cols st e).claims subs) > m
        · rw [if_pos hov]
          exact ⟨1, by simp [growStep]⟩
        · rw [if_neg hov]
          rcases ih { growStep L cols st e with
            ctx := get_context_string cols (growStep L cols st e).nodes
              (growStep L cols st e).edges (growStep L cols st e).claims subs }
            with ⟨n, hn⟩
          exact ⟨n + 1, by simpa [growStep, List.append_assoc] using hn⟩
      · rw [if_neg hm]
        rcases ih (growStep L cols st e) with ⟨n, hn⟩
        exact ⟨n + 1, by simpa [growStep, List.append_assoc] using hn⟩

theorem growLoop_full_or_over (numTok : String → Nat) (mt : Option Nat)
    (L : List LocalRecord) (cols : Cols) (subs : Option (List Record)) :
    ∀ l st, (growLoop numTok mt L cols subs l st).edges = st.edges ++ l ∨
      (∃ m, mt = some m ∧ m ≠ 0 ∧
        numTok (get_context_string cols (growLoop numTok mt L cols subs l st).nodes
          (growLoop numTok mt L cols subs l st).edges
          (growLoop numTok mt L cols subs l st).claims subs) > m) := by
  intro l
  induction l with
  | nil => exact fun st => Or.inl (by simp [growLoop_nil])
  | cons e rest ih =>
    intro st
    cases mt with
    | none =>
      rw [growLoop_cons_none]
      rcases ih (growStep L cols st e) with h | h
      · exact Or.inl (by simpa [growStep, List.append_assoc] using h)
      · rcases h with ⟨m, hm, _⟩
        cases hm
    | some m =>
      rw [growLoop_cons_some]
      by_cases hm : m ≠ 0
      · rw [if_pos hm]
        by_cases hov : numTok (get_context_string cols (growStep L cols st e).nodes
            (growStep L cols st e).edges (growStep L cols st e).claims subs) > m
        · rw [if_pos hov]
          exact Or.inr ⟨m, rfl, hm, by simpa using hov⟩
        · rw [if_neg hov]
          rcases ih { growStep L cols st e with
            ctx := get_context_string cols (growStep L cols st e).nodes
              (growStep L cols st e).edges (growStep L cols st e).claims subs }
            with h | h
          · exact Or.inl (by simpa [growStep, List.append_assoc] using h)
          · rcases h with ⟨m', hm', hne, hgt⟩
            cases hm'
            exact Or.inr ⟨m, rfl, hne, hgt⟩
      · rw [if_neg hm]
        rcases ih (growStep L cols st e) with h | h
        · exact Or.inl (by simpa [growStep, List.append_assoc] using h)
        · rcases h with ⟨m', hm', hne, hgt⟩
          cases hm'
          exact Or.inr ⟨m, rfl, hne, hgt⟩

theorem batchLoop_edges_take (numTok : String → Nat) (mt : Option Nat)
    (contexts : List String) (nodes claims : List Record) :
    ∀ l st, ∃ n,
      (batchLoop numTok mt contexts nodes claims l st).edges =
        st.edges ++ l.take n := by
  intro l
  induction l with
  | nil => exact fun st => ⟨0, by simp [batchLoop_nil]⟩
  | cons e rest ih =>
    intro st
    rw [batchLoop_cons]
    dsimp only
    by_cases hov : overBudget mt (numTok (batch_context_string
        (batchStep nodes claims st e).nodes (batchStep nodes claims st e).edges
        (batchStep nodes claims st e).claims contexts)) = true
    · rw [if_pos hov]
      exact ⟨1, by simp [batchStep]⟩
    · rw [if_neg hov]
      rcases ih { batchStep nodes claims st e with
        ctx := batch_context_string (batchStep nodes claims st e).nodes
          (batchStep nodes claims st e).edges
          (batchStep nodes claims st e).claims contexts } with ⟨n, hn⟩
      exact ⟨n + 1, by simpa [batchStep, List.append_assoc] using hn⟩

theorem batchLoop_ctx_accepted (numTok : String → Nat) (mt : Option Nat)
    (contexts : List String) (nodes claims : List Record) :
    ∀ l st, (batchLoop numTok mt contexts nodes claims l st).ctx = st.ctx ∨
      overBudget mt
        (numTok (batchLoop numTok mt contexts nodes claims l st).ctx) = false := by
  intro l
  induction l with
  | nil => exact fun st => Or.inl (by simp [batchLoop_nil])
  | cons e rest ih =>
    intro st
    rw [batchLoop_cons]
    dsimp only
    by_cases hov : overBudget mt (numTok (batch_context_string
        (batchStep nodes claims st e).nodes (batchStep nodes claims st e).edges
        (batchStep nodes claims st e).claims contexts)) = true
    · rw [if_pos hov]
      exact Or.inl rfl
    · rw [if_neg hov]
      rcases ih { batchStep nodes claims st e with
        ctx := batch_context_string (batchStep nodes claims st e).nodes
          (batchStep nodes claims st e).edges
          (batchStep nodes claims st e).claims contexts } with h | h
      · rw [h]
        exact Or.inr (by simpa using hov)
      · exact Or.inr h

theorem dedupKeepFirst_nil [DecidableEq α] : dedupKeepFirst ([] : List α) = [] := rfl

theorem sectionBlock_dedup (header idCol : String) (rs : List Record) :
    sectionBlock header idCol (dedupKeepFirst rs) = sectionBlock header idCol rs := by
  simp only [sectionBlock, ← dedupKeepFirst_filter, dedupKeepFirst_idem]

theorem generate_context_proj (numTok : String → Nat) (mt : Option Nat)
    (subs : Option (List Record)) (gid : Int) (grp : List BatchRow) :
    (generate_context numTok mt subs gid grp).communityId = gid ∧
    (generate_context numTok mt subs gid grp).contextString =
      (batchLoop numTok mt (reportsSeed subs gid) (batchNodes grp) (batchClaims grp)
        (batchSortedEdges grp) ⟨[], [], [], ""⟩).ctx ∧
    (generate_context numTok mt subs gid grp).contextSize =
      numTok ((batchLoop numTok mt (reportsSeed subs gid) (batchNodes grp)
        (batchClaims grp) (batchSortedEdges grp) ⟨[], [], [], ""⟩).ctx) ∧
    (generate_context numTok mt subs gid grp).exceedFlag =
      overBudget mt (numTok ((batchLoop numTok mt (reportsSeed subs gid)
        (batchNodes grp) (batchClaims grp) (batchSortedEdges grp)
        ⟨[], [], [], ""⟩).ctx)) :=
  ⟨rfl, rfl, rfl, rfl⟩

/-!
## Claim theorems
-/

/-- C1 (counterexample): at a growth step whose source claim list is the non-empty
`[wClaimA]` and whose target claim list is `[wClaimB]`, the claims appended to the
growing list are `[wClaimA, wClaimB]` — the source's claims followed by the
target's — and not the source's claim list twice (`[wClaimA, wClaimA]`), refuting
the claim as stated. -/
theorem c1_counterexample :
    srcClaimsOf wL defaultCols wEdge = [wClaimA] ∧
    tgtClaimsOf wL defaultCols wEdge = [wClaimB] ∧
    (growStep wL defaultCols ⟨[], [], [], ""⟩ wEdge).claims = [wClaimA, wClaimB] ∧
    (growStep wL defaultCols ⟨[], [], [], ""⟩ wEdge).claims ≠ [wClaimA, wClaimA] :=
  ⟨by decide, by decide, by decide, by decide⟩

/-- C1 (amended): at each growth step of `sort_context`, when the source's claim
list is non-empty the source's claims are appended once followed by the target's
claims once; when the source's claim list is empty nothing is appended at all (so
the target's claims are gated on the source's, but the source's claims are not
duplicated). -/
theorem c1_amended_growth_claims (L : List LocalRecord) (cols : Cols)
    (st : GrowState) (e : Record) :
    (growStep L cols st e).claims = st.claims ++
      (if srcClaimsOf L cols e = [] then []
       else srcClaimsOf L cols e ++ tgtClaimsOf L cols e) := by
  by_cases h : srcClaimsOf L cols e = []
  · simp [growStep, h]
  · have h' : (srcClaimsOf L cols e).isEmpty = false := by
      simpa [List.isEmpty_eq_false] using h
    simp [growStep, h, h', List.append_assoc]

/-- C7: in `sort_context`'s growth step, if the edge's source node has no claims
then no claims at all are appended for that edge — whatever the target's claim
list is. -/
theorem c7_no_claims_when_source_empty (L : List LocalRecord) (cols : Cols)
    (st : GrowState) (e : Record) (h : srcClaimsOf L cols e = []) :
    (growStep L cols st e).claims = st.claims := by
  simp [growStep, h]

/-- C7 (witness): on the concrete input whose edge source A has no claims while
target B has one, the growth step appends no claims. -/
theorem c7_witness :
    tgtClaimsOf wL7 defaultCols wEdge = [wClaimB] ∧
    (growStep wL7 defaultCols ⟨[], [], [], ""⟩ wEdge).claims = [] :=
  ⟨by decide,
    c7_no_claims_when_source_empty wL7 defaultCols ⟨[], [], [], ""⟩ wEdge (by decide)⟩

/-- C9: the single-community renderer produces one block per non-empty filtered,
deduplicated collection — a literal section header line then the CSV table with a
header row and no index column — in the fixed order Reports, Entities, Claims,
Relationships, joined by one blank line (it equals the spec-side `renderSpec`), and
it returns the empty string when every collection is empty. -/
theorem c9_render_structure (cols : Cols) (entities edges claims : List Record)
    (subs : Option (List Record)) :
    get_context_string cols entities edges claims subs =
        renderSpec cols entities edges claims subs ∧
      get_context_string cols [] [] [] none = "" ∧
      get_context_string cols [] [] [] (some []) = "" := by
  refine ⟨?_, rfl, rfl⟩
  unfold get_context_string renderSpec reportsBlockSingle sectionBlock
  cases subs with
  | none =>
    by_cases h2 : (dedupKeepFirst (entities.filter (hasGoodId cols.nodeId))).isEmpty <;>
    by_cases h3 : (dedupKeepFirst (claims.filter (hasGoodId cols.claimId))).isEmpty <;>
    by_cases h4 : (dedupKeepFirst (edges.filter (hasGoodId cols.edgeId))).isEmpty <;>
      simp [h2, h3, h4, List.filter, dedupKeepFirst_nil]
  | some r =>
    by_cases h1 : (dedupKeepFirst (r.filter (hasGoodId cols.communityId))).isEmpty <;>
    by_cases h2 : (dedupKeepFirst (entities.filter (hasGoodId cols.nodeId))).isEmpty <;>
    by_cases h3 : (dedupKeepFirst (claims.filter (hasGoodId cols.claimId))).isEmpty <;>
    by_cases h4 : (dedupKeepFirst (edges.filter (hasGoodId cols.edgeId))).isEmpty <;>
      simp [h1, h2, h3, h4, List.filter]

/-- C10 (amended): entity, edge and claim rows are deduplicated by full-row
equality before rendering in both assemblers, and report rows in the
single-community assembler: rendering those collections with duplicate rows equals
rendering them with the duplicates removed (keeping first occurrences), and a
deduplicated row list holds each row at most once.  (The batch assembler's seeded
Reports block is rendered with no deduplication — see the counterexample — so its
report table enters the batch renderer only as an already-rendered string.) -/
theorem c10_dedup_before_render (cols : Cols) (entities edges claims : List Record)
    (subs : Option (List Record)) (existing : List String) :
    get_context_string cols (dedupKeepFirst entities) (dedupKeepFirst edges)
        (dedupKeepFirst claims) (subs.map dedupKeepFirst) =
      get_context_string cols entities edges claims subs ∧
    batch_context_string (dedupKeepFirst entities) (dedupKeepFirst edges)
        (dedupKeepFirst claims) existing =
      batch_context_string entities edges claims existing ∧
    (∀ rs : List Record, (dedupKeepFirst rs).Nodup) := by
  refine ⟨?_, ?_, fun rs => nodup_dedupKeepFirst rs⟩
  · unfold get_context_string reportsBlockSingle
    cases subs with
    | none => simp [sectionBlock_dedup]
    | some r => simp [sectionBlock_dedup]
  · simp only [batch_context_string, isEmpty_dedupKeepFirst, dedupKeepFirst_idem]

/-- C10 (counterexample): the batch Reports seed renders the matching report rows
with `to_csv` and no `drop_duplicates`: supplying community 7's report row twice
makes its rendered CSV line occur twice back to back inside the returned context
string, and the batch output on the duplicated report list differs from the batch
output on the deduplicated one — refuting, for report rows in the batch assembler,
both the "exactly one occurrence" and the "rendering with duplicates equals
rendering without" forms of the claim. -/
theorem c10_counterexample :
    strOccurs (csvRow (columnsOf [wRep7, wRep7]) wRep7 ++
        csvRow (columnsOf [wRep7, wRep7]) wRep7)
      (((sort_context_batch lenTok wInput3 (some [wRep7, wRep7]) none).headD
        wDefaultRow).contextString) = true ∧
    sort_context_batch lenTok wInput3 (some [wRep7, wRep7]) none ≠
      sort_context_batch lenTok wInput3 (some [wRep7]) none :=
  ⟨by decide, by decide⟩

/-- C2: whenever the single-community input pools at least one well-formed edge
(one whose identity passes the renderer's filter; degree cells are ints as the sort
requires), `sort_context` returns a non-empty string — under any budget, including
one the very first render already exceeds, thanks to the fallback render of the
lists at termination. -/
theorem c2_nonempty_with_wellformed_edge (numTok : String → Nat)
    (L : List LocalRecord) (subs : Option (List Record)) (mt : Option Nat)
    (cols : Cols) (h0 : numTok "" = 0)
    (hdeg : ∀ e ∈ collectEdges L, isIntCell e cols.edgeDegree = true)
    (hedge : ∃ e ∈ collectEdges L, hasGoodId cols.edgeId e = true) :
    sort_context numTok L subs mt cols ≠ "" := by
  obtain ⟨e, he, hg⟩ := hedge
  have hfull := growLoop_full_or_over numTok mt L cols subs (singleSorted cols L)
    ⟨[], [], [], ""⟩
  unfold sort_context
  dsimp only
  by_cases hc : (growLoop numTok mt L cols subs (singleSorted cols L)
      ⟨[], [], [], ""⟩).ctx = ""
  · rw [if_pos hc]
    rcases hfull with h | h
    · have hmem : e ∈ (growLoop numTok mt L cols subs (singleSorted cols L)
          ⟨[], [], [], ""⟩).edges := by
        rw [h]
        simpa using mem_singleSorted.mpr he
      exact get_context_string_ne_empty_of_edge cols hmem hg _ _ _
    · rcases h with ⟨m, _, _, hgt⟩
      intro hemp
      rw [hemp, h0] at hgt
      omega
  · rw [if_neg hc]
    exact hc

/-- C2 (witness): the concrete two-node input with one well-formed edge, under a
budget of one token that the very first render already exceeds, still produces a
non-empty string. -/
theorem c2_witness : sort_context lenTok wL none (some 1) defaultCols ≠ "" :=
  c2_nonempty_with_wellformed_edge lenTok wL none (some 1) defaultCols rfl
    (by decide) (by decide)

/-- C3: in `sort_context_batch`, when a truthy budget is set and the render of the
very first growth step of a community's group already exceeds it, that community's
output row carries the empty context string, size zero and a false exceed flag —
no partial-content fallback. -/
theorem c3_batch_first_step_over_budget (numTok : String → Nat)
    (input : List (Int × BatchRow)) (subs : Option (List Record)) (m : Nat)
    (gid : Int) (e : Record) (rest : List Record)
    (h0 : numTok "" = 0) (hm : m ≠ 0)
    (hsort : batchSortedEdges (groupRows input gid) = e :: rest)
    (hover : numTok (firstStepRender subs gid (groupRows input gid) e) > m) :
    ∀ row ∈ sort_context_batch numTok input subs (some m), row.communityId = gid →
      row.contextString = "" ∧ row.contextSize = 0 ∧ row.exceedFlag = false := by
  intro row hrow hgid
  unfold sort_context_batch at hrow
  rcases List.mem_map.mp hrow with ⟨g, hgmem, hrw⟩
  rw [← hrw] at hgid
  rw [(generate_context_proj numTok (some m) subs g (groupRows input g)).1] at hgid
  subst hgid
  have hover' : numTok (batch_context_string
      (batchStep (batchNodes (groupRows input g)) (batchClaims (groupRows input g))
        ⟨[], [], [], ""⟩ e).nodes
      (batchStep (batchNodes (groupRows input g)) (batchClaims (groupRows input g))
        ⟨[], [], [], ""⟩ e).edges
      (batchStep (batchNodes (groupRows input g)) (batchClaims (groupRows input g))
        ⟨[], [], [], ""⟩ e).claims
      (reportsSeed subs g)) > m := hover
  have hob : overBudget (some m) (numTok (batch_context_string
      (batchStep (batchNodes (groupRows input g)) (batchClaims (groupRows input g))
        ⟨[], [], [], ""⟩ e).nodes
      (batchStep (batchNodes (groupRows input g)) (batchClaims (groupRows input g))
        ⟨[], [], [], ""⟩ e).edges
      (batchStep (batchNodes (groupRows input g)) (batchClaims (groupRows input g))
        ⟨[], [], [], ""⟩ e).claims
      (reportsSeed subs g))) = true := by
    simp [overBudget, hm, hover']
  have hctx : (batchLoop numTok (some m) (reportsSeed subs g)
      (batchNodes (groupRows input g)) (batchClaims (groupRows input g))
      (batchSortedEdges (groupRows input g)) ⟨[], [], [], ""⟩).ctx = "" := by
    rw [hsort, batchLoop_cons]
    dsimp only
    rw [if_pos hob]
  have hproj := generate_context_proj numTok (some m) subs g (groupRows input g)
  refine ⟨?_, ?_, ?_⟩
  · rw [← hrw, hproj.2.1, hctx]
  · rw [← hrw, hproj.2.2.1, hctx, h0]
  · rw [← hrw, hproj.2.2.2, hctx, h0]
    simp [overBudget]

/-- C3 (witness): community 7's single edge renders to more than the one-token
budget at the first step, and the returned row is empty-string/zero-size/false. -/
theorem c3_witness :
    ((sort_context_batch lenTok wInput3 none (some 1)).headD
        wDefaultRow).contextString = "" ∧
    ((sort_context_batch lenTok wInput3 none (some 1)).headD
        wDefaultRow).contextSize = 0 ∧
    ((sort_context_batch lenTok wInput3 none (some 1)).headD
        wDefaultRow).exceedFlag = false :=
  c3_batch_first_step_over_budget lenTok wInput3 none 1 7 wEdge [] rfl
    (by decide) (by decide) (by decide)
    ((sort_context_batch lenTok wInput3 none (some 1)).headD wDefaultRow)
    (by decide) (by decide)

/-- C6: every output row of `sort_context_batch` has a false exceed flag, for every
input, report table and budget setting: the loop only ever accepts renders within a
truthy budget, and with no (or zero) budget the flag is computed as false. -/
theorem c6_exceed_flag_always_false (numTok : String → Nat)
    (input : List (Int × BatchRow)) (subs : Option (List Record)) (mt : Option Nat)
    (h0 : numTok "" = 0) :
    ∀ row ∈ sort_context_batch numTok input subs mt, row.exceedFlag = false := by
  intro row hrow
  unfold sort_context_batch at hrow
  rcases List.mem_map.mp hrow with ⟨g, _, hrw⟩
  rw [← hrw, (generate_context_proj numTok mt subs g (groupRows input g)).2.2.2]
  rcases batchLoop_ctx_accepted numTok mt (reportsSeed subs g)
      (batchNodes (groupRows input g)) (batchClaims (groupRows input g))
      (batchSortedEdges (groupRows input g)) ⟨[], [], [], ""⟩ with h | h
  · rw [h]
    show overBudget mt (numTok "") = false
    rw [h0]
    cases mt with
    | none => rfl
    | some m => simp [overBudget]
  · exact h

/-- C6 (witness): the flag is false on the concrete one-community batch input with
an over-tight budget. -/
theorem c6_witness :
    ((sort_context_batch lenTok wInput3 none (some 1)).headD
        wDefaultRow).exceedFlag = false :=
  c6_exceed_flag_always_false lenTok wInput3 none (some 1) rfl
    ((sort_context_batch lenTok wInput3 none (some 1)).headD wDefaultRow)
    (by decide)

/-- C8: a community whose rows yield no edges after exploding and dropping nulls
returns an empty context string and size zero (and a false flag), whatever
sub-community reports were seeded and whatever the budget: the seeded Reports block
is only emitted through an edge growth step. -/
theorem c8_no_edges_no_output (numTok : String → Nat)
    (input : List (Int × BatchRow)) (subs : Option (List Record)) (mt : Option Nat)
    (gid : Int) (h0 : numTok "" = 0)
    (hnoedges : batchEdgePool (groupRows input gid) = []) :
    ∀ row ∈ sort_context_batch numTok input subs mt, row.communityId = gid →
      row.contextString = "" ∧ row.contextSize = 0 ∧ row.exceedFlag = false := by
  intro row hrow hgid
  unfold sort_context_batch at hrow
  rcases List.mem_map.mp hrow with ⟨g, hgmem, hrw⟩
  rw [← hrw] at hgid
  rw [(generate_context_proj numTok mt subs g (groupRows input g)).1] at hgid
  subst hgid
  have hsorted : batchSortedEdges (groupRows input g) = [] := by
    unfold batchSortedEdges
    rw [hnoedges]
    rfl
  have hctx : (batchLoop numTok mt (reportsSeed subs g)
      (batchNodes (groupRows input g)) (batchClaims (groupRows input g))
      (batchSortedEdges (groupRows input g)) ⟨[], [], [], ""⟩).ctx = "" := by
    rw [hsorted, batchLoop_nil]
  have hproj := generate_context_proj numTok mt subs g (groupRows input g)
  refine ⟨?_, ?_, ?_⟩
  · rw [← hrw, hproj.2.1, hctx]
  · rw [← hrw, hproj.2.2.1, hctx, h0]
  · rw [← hrw, hproj.2.2.2, hctx, h0]
    cases mt with
    | none => rfl
    | some m => simp [overBudget]

/-- C8 (witness): community 3 has a matching report that would fit a budget of
1000 tokens, yet with no edges its row is empty-string/zero-size/false. -/
theorem c8_witness :
    reportsSeed (some [wRep8]) 3 ≠ [] ∧
    lenTok (joinBlocks (reportsSeed (some [wRep8]) 3)) ≤ 1000 ∧
    ((sort_context_batch lenTok wInput8 (some [wRep8]) (some 1000)).headD
        wDefaultRow).contextString = "" ∧
    ((sort_context_batch lenTok wInput8 (some [wRep8]) (some 1000)).headD
        wDefaultRow).contextSize = 0 := by
  have h := c8_no_edges_no_output lenTok wInput8 (some [wRep8]) (some 1000) 3 rfl
    (by decide)
    ((sort_context_batch lenTok wInput8 (some [wRep8]) (some 1000)).headD
      wDefaultRow)
    (by decide) (by decide)
  exact ⟨by decide, by decide, h.1, h.2.1⟩

/-- C4: edge ordering in the rendered Relationships rows.  For edge pools whose
sort-key cells are ints: (1) every deduplicated, identity-filtered prefix of the
single-community sorted pool is degree-descending (so a higher-degree edge is never
rendered after a lower-degree one); (2) the single-community sort is stable — for
each degree value the edges of that degree appear in exactly their input order;
(3) every deduplicated prefix of the batch sorted pool is ordered by degree
descending then edge id ascending; (4)/(5) the edge rows each growth loop ever
renders are exactly such a prefix. -/
theorem c4_edge_ordering (cols : Cols) (L : List LocalRecord) (grp : List BatchRow)
    (numTok : String → Nat) (mt : Option Nat) (subs : Option (List Record))
    (gid : Int)
    (hdeg : ∀ e ∈ collectEdges L, isIntCell e cols.edgeDegree = true)
    (hbids : ∀ e ∈ batchEdgePool grp,
      isIntCell e EDGE_DEGREE = true ∧ isIntCell e EDGE_ID = true) :
    (∀ n, (dedupKeepFirst (((singleSorted cols L).take n).filter
        (hasGoodId cols.edgeId))).Pairwise
        (fun a b => getDeg cols.edgeDegree b ≤ getDeg cols.edgeDegree a)) ∧
    (∀ d, (singleSorted cols L).filter
        (fun x => decide (getDeg cols.edgeDegree x = d)) =
      (collectEdges L).filter (fun x => decide (getDeg cols.edgeDegree x = d))) ∧
    (∀ n, (dedupKeepFirst ((batchSortedEdges grp).take n)).Pairwise
        (fun a b => getDeg EDGE_DEGREE b < getDeg EDGE_DEGREE a ∨
          (getDeg EDGE_DEGREE a = getDeg EDGE_DEGREE b ∧
            getIdInt a ≤ getIdInt b))) ∧
    (∃ n, (growLoop numTok mt L cols subs (singleSorted cols L)
        ⟨[], [], [], ""⟩).edges = (singleSorted cols L).take n) ∧
    (∃ n, (batchLoop numTok mt (reportsSeed subs gid) (batchNodes grp)
        (batchClaims grp) (batchSortedEdges grp) ⟨[], [], [], ""⟩).edges =
      (batchSortedEdges grp).take n) := by
  refine ⟨?_, filter_degEq_singleSorted cols L, ?_, ?_, ?_⟩
  · intro n
    have hs : (singleSorted cols L).Pairwise (singleLe cols) :=
      singleSorted_pairwise cols L
    have hsub : List.Sublist
        (dedupKeepFirst (((singleSorted cols L).take n).filter
          (hasGoodId cols.edgeId)))
        (singleSorted cols L) :=
      (dedupKeepFirst_sublist _).trans
        ((List.filter_sublist _).trans (List.take_sublist n _))
    exact List.Pairwise.sublist hsub hs
  · intro n
    have hs : (batchSortedEdges grp).Pairwise batchLe :=
      batchSortedEdges_pairwise grp
    have hsub : List.Sublist (dedupKeepFirst ((batchSortedEdges grp).take n))
        (batchSortedEdges grp) :=
      (dedupKeepFirst_sublist _).trans (List.take_sublist n _)
    exact List.Pairwise.sublist hsub hs
  · rcases growLoop_edges_take numTok mt L cols subs (singleSorted cols L)
      ⟨[], [], [], ""⟩ with ⟨n, hn⟩
    exact ⟨n, by simpa using hn⟩
  · rcases batchLoop_edges_take numTok mt (reportsSeed subs gid) (batchNodes grp)
      (batchClaims grp) (batchSortedEdges grp) ⟨[], [], [], ""⟩ with ⟨n, hn⟩
    exact ⟨n, by simpa using hn⟩

/-- C4 (witness): on the concrete pools — a single degree-1 edge for the
single-community side and two equal-degree int-id edges for the batch side — the
ordering, stability and prefix properties hold at concrete instances. -/
theorem c4_witness :
    ((dedupKeepFirst (((singleSorted defaultCols wL).take 1).filter
        (hasGoodId defaultCols.edgeId))).Pairwise
        (fun a b => getDeg defaultCols.edgeDegree b ≤
          getDeg defaultCols.edgeDegree a)) ∧
    ((singleSorted defaultCols wL).filter
        (fun x => decide (getDeg defaultCols.edgeDegree x = 1)) =
      (collectEdges wL).filter
        (fun x => decide (getDeg defaultCols.edgeDegree x = 1))) ∧
    ((dedupKeepFirst ((batchSortedEdges wGrp4).take 2)).Pairwise
        (fun a b => getDeg EDGE_DEGREE b < getDeg EDGE_DEGREE a ∨
          (getDeg EDGE_DEGREE a = getDeg EDGE_DEGREE b ∧
            getIdInt a ≤ getIdInt b))) := by
  have h := c4_edge_ordering defaultCols wL wGrp4 lenTok none none 0
    (by decide) (by decide)
  exact ⟨h.1 1, h.2.1 1, h.2.2.1 2⟩

end GraphRag
